import Mathlib

/-!
Shallow embedding of `plugins/modules/install_from_github.py` (the
`install_from_github` Ansible module): the Asset Selector
(`AssetSelector.__init__`, `asset_matches_system`,
`asset_matches_architecture`, `select_asset`), the installer's move pipeline
(`move_paths`, `files_have_same_content`), the classification loop of
`download_asset`, `is_download_required`, the version-marker write at the end
of `main`, and the repository-identifier check of `main`.

Paths are modelled as lists of components (`FsPath`); the filesystem as an
association list from paths to entries, every existing file and directory
listed explicitly.  Python regexes that the caller supplies (`asset_regex`,
`src_regex`) are abstracted as the boolean predicate their `fullmatch`
computes on a name; the two fixed regexes of the source (the architecture
token search and the repository-identifier check) are embedded concretely.
-/

/-- A path, as a list of components: the embedding of the strings
`os.path.join` builds.  `os.path.basename` is the last component,
`os.path.dirname` drops it. -/
abbrev FsPath := List String

/-- One filesystem object: a regular file with its byte content (modelled as
a string), or a directory. -/
inductive FsEntry
  | file (content : String)
  | dir
deriving DecidableEq, Repr

/-- The filesystem state: an association list from existing paths to entries.
Directories are listed explicitly, so `os.path.isdir` is a lookup. -/
abbrev Fs := List (FsPath × FsEntry)

/-- First entry at path `p`, if any (the stat of `p`). -/
def fsLookup (fs : Fs) (p : FsPath) : Option FsEntry :=
  (fs.find? (fun e => e.1 == p)).map (fun e => e.2)

/-- Embedding of `os.path.exists`. -/
def fsExists (fs : Fs) (p : FsPath) : Bool :=
  (fsLookup fs p).isSome

/-- Embedding of `os.path.isdir`. -/
def fsIsDir (fs : Fs) (p : FsPath) : Bool :=
  match fsLookup fs p with
  | some .dir => true
  | _ => false

/-- Embedding of `os.path.isfile`. -/
def fsIsFile (fs : Fs) (p : FsPath) : Bool :=
  match fsLookup fs p with
  | some (.file _) => true
  | _ => false

/-- Embedding of `os.path.basename`. -/
def basename (p : FsPath) : String :=
  p.getLastD ""

/-- Embedding of `os.path.dirname`. -/
def dirname (p : FsPath) : FsPath :=
  p.dropLast

/-- Embedding of `os.path.join(dest, os.path.basename(p))`. -/
def joinUnder (dest p : FsPath) : FsPath :=
  dest ++ [basename p]

/-- Path `p`, re-rooted from `src` to `dst` (used to describe what
`shutil.move src dst` does to each entry inside `src`). -/
def reroot (src dst p : FsPath) : FsPath :=
  dst ++ p.drop src.length

/-- Embedding of `shutil.move(src, dst)` where `dst` is the full target path
(the source always joins the base name itself before calling it): every entry
at or below `src` is re-rooted to `dst`, and an entry previously at or below
`dst` (the overwritten file) disappears. -/
def fsMove (fs : Fs) (src dst : FsPath) : Fs :=
  (fs.filter (fun e => !(src.isPrefixOf e.1) && !(dst.isPrefixOf e.1)))
    ++ (fs.filter (fun e => src.isPrefixOf e.1)).map
        (fun e => (reroot src dst e.1, e.2))

/-- The errors `move_paths` and its helpers raise through
`module.fail_json` (or, for `compareFailed`, the bare `Exception` of
`files_have_same_content`). -/
inductive MoveError
  | destinationExists (dstPath : FsPath)
  | multipleSources (dest : FsPath)
  | emptySourceList (dest : FsPath)
  | parentMissing (d : FsPath)
  | destinationFileExists (dest : FsPath)
  | compareFailed (path1 path2 : FsPath)
deriving DecidableEq, Repr

/-- Embedding of `files_have_same_content` (lines 159-162): raises when either
path is not a regular file, otherwise compares contents.  (`filecmp.cmp`
with its default `shallow=True` falls back to reading both files whenever the
stat signatures differ, which is the case for a freshly extracted temporary
file; the model is that byte comparison.) -/
def files_have_same_content (fs : Fs) (path1 path2 : FsPath) : Except MoveError Bool :=
  match fsLookup fs path1, fsLookup fs path2 with
  | some (.file c1), some (.file c2) => .ok (c1 == c2)
  | _, _ => .error (.compareFailed path1 path2)

/-- The loop body of `move_paths` (lines 226-260), one pass over
`paths_to_move` with the given `validate_only` flag.  The filesystem is
threaded explicitly; an error carries the filesystem state at the moment
`module.fail_json` aborts the run.  `emptySourceList` is the `IndexError`
`path_list[0]` would raise on an empty list (unreachable from
classification, which only appends). -/
def movePathsGo (validateOnly : Bool) :
    Fs → List (FsPath × List FsPath) → Bool → Except (MoveError × Fs) (Fs × Bool)
  | fs, [], changed => .ok (fs, changed)
  | fs, (dest, pathList) :: rest, changed =>
    if fsIsDir fs dest then
      match pathList.find? (fun p => fsIsDir fs p && fsExists fs (joinUnder dest p)) with
      | some p => .error (.destinationExists (joinUnder dest p), fs)
      | none =>
        if validateOnly then
          movePathsGo validateOnly fs rest changed
        else
          movePathsGo validateOnly
            (pathList.foldl (fun acc p => fsMove acc p (joinUnder dest p)) fs) rest true
    else
      if pathList.length > 1 then
        .error (.multipleSources dest, fs)
      else
        match pathList with
        | [] => .error (.emptySourceList dest, fs)
        | absPath :: _ =>
          if !(fsExists fs dest) then
            if !(fsExists fs (dirname dest)) then
              .error (.parentMissing (dirname dest), fs)
            else if validateOnly then
              movePathsGo validateOnly fs rest changed
            else
              movePathsGo validateOnly (fsMove fs absPath dest) rest true
          else
            if fsIsDir fs absPath then
              .error (.destinationFileExists dest, fs)
            else if validateOnly then
              movePathsGo validateOnly fs rest changed
            else
              match files_have_same_content fs absPath dest with
              | .error e => .error (e, fs)
              | .ok same =>
                movePathsGo validateOnly (fsMove fs absPath dest) rest (changed || !same)

/-- Embedding of `move_paths(module, paths_to_move)` (lines 221-260): a full
validation pass first (`move_paths(..., validate_only=True)`), then, only if
it raised nothing, the executing pass over the same mapping. -/
def move_paths (fs : Fs) (pathsToMove : List (FsPath × List FsPath)) :
    Except (MoveError × Fs) (Fs × Bool) :=
  match movePathsGo true fs pathsToMove false with
  | .error e => .error e
  | .ok _ => movePathsGo false fs pathsToMove false

/-- One asset of a release, as the selector sees it (`name`,
`browser_download_url` from the release metadata JSON). -/
structure Asset where
  name : String
  browser_download_url : String
deriving DecidableEq, Repr

/-- The state `AssetSelector.__init__` stores: the compiled `asset_regex`
(abstracted as the predicate its `fullmatch` computes on a file name), the
lower-cased `platform.system()`, and the acceptable architecture tokens. -/
structure AssetSelector where
  asset_regex : String → Bool
  system : String
  architectures : List String

/-- The `AssetSelector.AssetSelectionFailed` exception, one constructor per
`raise` site of `select_asset` (lines 366, 373, 383, 390), carrying the data
its message interpolates. -/
inductive AssetSelectionFailed
  | noAssetMatchedRegex
  | noArchitectureMatch (architectures : List String)
  | noSystemMatch (architectures : List String) (system : String)
  | notUnique (count : Nat)
deriving DecidableEq, Repr

/-- The built-in table mapping `platform.machine().lower()` to its canonical
acceptable tokens (lines 334-339); any other machine maps to itself. -/
def machineArchitectures (machine : String) : List String :=
  if machine == "x86_64" then ["x86_64", "amd64"]
  else if machine == "amd64" then ["x86_64", "amd64"]
  else if machine == "aarch64" then ["aarch64", "arm64"]
  else if machine == "arm64" then ["aarch64", "arm64"]
  else [machine]

/-- A value of the `asset_arch_mapping` dict: the source accepts either a
plain string (made a one-element list) or a list (lines 345-349). -/
inductive ArchMapVal
  | one (s : String)
  | many (l : List String)

/-- How `AssetSelector.__init__` normalises an `asset_arch_mapping` value. -/
def ArchMapVal.toStrings : ArchMapVal → List String
  | .one s => [s]
  | .many l => l

/-- Embedding of `AssetSelector.__init__` (lines 330-349).  `system` and
`machine` are the lower-cased host facts.  The source picks
`list(set(architectures).intersection(asset_arch_mapping.keys()))[0]`, whose
order over a several-element intersection Python leaves unspecified; the
model picks the first element of `architectures` (in table order) that is a
key of the mapping, which is the only candidate whenever at most one token
intersects the mapping's keys. -/
def AssetSelector.build (asset_regex : String → Bool) (system machine : String)
    (asset_arch_mapping : List (String × ArchMapVal)) : AssetSelector :=
  let architectures := machineArchitectures machine
  match architectures.find? (fun a => (asset_arch_mapping.lookup a).isSome) with
  | none => ⟨asset_regex, system, architectures⟩
  | some k =>
    ⟨asset_regex, system,
      ((asset_arch_mapping.lookup k).getD (.many architectures)).toStrings⟩

/-- Word characters of the regexes in play are alphanumerics and the
underscore; `(?:^|\W|_)` therefore accepts a boundary exactly when the
neighbouring character is not alphanumeric. -/
def lowerChars (s : String) : List Char :=
  s.toList.map Char.toLower

/-- Does `re.search(rf"(?:^|\W|_){tok}(?:$|\W|_)", name)` match at start
position `i`: the token's characters occur at `i`, the character before `i`
(when any) is not alphanumeric, and the character after the token (when any)
is not alphanumeric. -/
def matchTokenAt (name tok : List Char) (i : Nat) : Bool :=
  decide ((name.drop i).take tok.length = tok)
    && (decide (i = 0) || !((name.getD (i - 1) 'a').isAlphanum))
    && (decide (i + tok.length = name.length)
        || !((name.getD (i + tok.length) 'a').isAlphanum))

/-- Embedding of `re.search` for the fixed pattern
`(?:^|\W|_){re.escape(tok)}(?:$|\W|_)`: some start position matches. -/
def searchToken (name tok : List Char) : Bool :=
  (List.range (name.length + 1)).any (matchTokenAt name tok)

/-- Embedding of Python's substring containment `needle in hay`. -/
def containsSub (hay needle : List Char) : Bool :=
  (List.range (hay.length + 1)).any
    (fun i => decide (((hay.drop i).take needle.length) = needle))

/-- Embedding of `AssetSelector.asset_matches_system` (lines 351-352):
`self.system in asset["name"].lower()`. -/
def AssetSelector.asset_matches_system (sel : AssetSelector) (asset : Asset) : Bool :=
  containsSub (lowerChars asset.name) sel.system.toList

/-- Embedding of `AssetSelector.asset_matches_architecture` (lines 354-358):
some acceptable token occurs in the lower-cased name, bounded on both sides
by start/end of string or a non-word/underscore character.  (The token itself
is not lower-cased, exactly as in the source.) -/
def AssetSelector.asset_matches_architecture (sel : AssetSelector) (asset : Asset) : Bool :=
  sel.architectures.any
    (fun architecture => searchToken (lowerChars asset.name) architecture.toList)

/-- The successive narrowing stages of `select_asset`, named after the local
`filtered_assets` re-bindings: assets whose full name the compiled
`asset_regex` accepts (line 364). -/
def patternFiltered (sel : AssetSelector) (assets : List Asset) : List Asset :=
  assets.filter (fun asset => sel.asset_regex asset.name)

/-- The pattern survivors that also match the architecture (line 371). -/
def architectureFiltered (sel : AssetSelector) (assets : List Asset) : List Asset :=
  (patternFiltered sel assets).filter (fun asset => sel.asset_matches_architecture asset)

/-- The architecture survivors that also match the system (line 381). -/
def systemFiltered (sel : AssetSelector) (assets : List Asset) : List Asset :=
  (architectureFiltered sel assets).filter (fun asset => sel.asset_matches_system asset)

/-- Embedding of `AssetSelector.select_asset` (lines 360-390).  Note that the
single-pattern-match branch returns `assets[0]` — the head of the original,
unfiltered list — exactly as the source's line 368 does; `headD`'s default is
unreachable there because a nonempty filtered list forces `assets` nonempty. -/
def AssetSelector.select_asset (sel : AssetSelector) (assets : List Asset) :
    Except AssetSelectionFailed Asset :=
  if (patternFiltered sel assets).length = 0 then
    .error .noAssetMatchedRegex
  else if (patternFiltered sel assets).length = 1 then
    .ok (assets.headD ⟨"", ""⟩)
  else if (architectureFiltered sel assets).length = 0 then
    .error (.noArchitectureMatch sel.architectures)
  else if (architectureFiltered sel assets).length = 1 then
    .ok ((architectureFiltered sel assets).headD ⟨"", ""⟩)
  else if (systemFiltered sel assets).length = 0 then
    .error (.noSystemMatch sel.architectures sel.system)
  else if (systemFiltered sel assets).length = 1 then
    .ok ((systemFiltered sel assets).headD ⟨"", ""⟩)
  else
    .error (.notUnique (systemFiltered sel assets).length)

/-- One element of `move_rules` as the classification loop uses it:
`src_match` is the predicate `re.fullmatch(move_rule["src_regex"], ·)`
computes on a path relative to the extraction root (abstracted, since the
regex is caller-supplied), and `dst` the tilde-expanded destination. -/
structure MoveRule where
  src_match : FsPath → Bool
  dst : FsPath

/-- All source paths recorded in `paths_to_move` so far. -/
def recordedPaths (ptm : List (FsPath × List FsPath)) : List FsPath :=
  ptm.flatMap (fun e => e.2)

/-- Embedding of the `already_included` test (lines 295-299):
`os.path.commonpath([p, abs_path]) == p` for component paths says `p` is
`abs_path` or one of its ancestors. -/
def alreadyIncluded (ptm : List (FsPath × List FsPath)) (absPath : FsPath) : Bool :=
  ptm.any (fun e => e.2.any (fun p => p.isPrefixOf absPath))

/-- Embedding of `paths_to_move[move_rule["dst"]].append(abs_path)` on the
`defaultdict(list)`: append to the entry of `dst` if present, else add a new
entry at the end (dict insertion order). -/
def addToPaths : List (FsPath × List FsPath) → FsPath → FsPath → List (FsPath × List FsPath)
  | [], dst, absPath => [(dst, [absPath])]
  | (d, ps) :: rest, dst, absPath =>
    if d == dst then (d, ps ++ [absPath]) :: rest
    else (d, ps) :: addToPaths rest dst absPath

/-- One iteration of the classification loop of `download_asset`
(lines 292-308) for the entry `absPath` (its path relative to the extraction
root): skip it when an already recorded path is an ancestor, else record it
under the first move rule whose `src_regex` fully matches (the `break`). -/
def classifyStep (moveRules : List MoveRule) (ptm : List (FsPath × List FsPath))
    (absPath : FsPath) : List (FsPath × List FsPath) :=
  if alreadyIncluded ptm absPath then ptm
  else
    match moveRules.find? (fun moveRule => moveRule.src_match absPath) with
    | some moveRule => addToPaths ptm moveRule.dst absPath
    | none => ptm

/-- The whole classification loop: `walk` is the sequence of entries
`os.walk(extract_dir)` yields (for each root, its directories then files,
top-down), as paths relative to the extraction root.  `os.walk` visits a
directory's entries before the entries of its subdirectories, so every
strict ancestor of an entry that itself occurs in `walk` occurs earlier. -/
def classifyWalk (moveRules : List MoveRule) (walk : List FsPath) :
    List (FsPath × List FsPath) :=
  walk.foldl (classifyStep moveRules) []

/-- `p` is a strict ancestor of `q` (a proper component-wise path prefix). -/
def strictAncestor (p q : FsPath) : Bool :=
  p.isPrefixOf q && decide (p.length < q.length)

/-- What `module.run_command(version_command, handle_exceptions=False)` did:
`raised` when starting the command raised `OSError`/`IOError` (command not
found, not executable, ...), else the return code and standard output. -/
inductive ProbeOutcome
  | raised
  | ran (rc : Int) (stdout : String)

/-- The verdict of `is_download_required`: its boolean, or the abort of one of
its two `module.fail_json` calls. -/
inductive DownloadDecision
  | required
  | notRequired
  | failJson (msg : String)
deriving DecidableEq, Repr

/-- Embedding of `is_download_required` (lines 171-203).  `version_file` is
`some contents` when the option is set, with `contents = none` when the file
does not exist and `some text` its raw text otherwise.  `versionSearch`
abstracts `extract_version`, that is `re.search(version_regex, ·)` returning
the matched group; `probe` abstracts `module.run_command`.  Note the source
binds the return code `rc` and never consults it. -/
def is_download_required (versionSearch : String → Option String)
    (version_command : Option String) (version_file : Option (Option String))
    (tag_name : String) (probe : ProbeOutcome) : DownloadDecision :=
  match version_file with
  | some contents =>
    match contents with
    | none => .required
    | some text => if text.trim == tag_name then .notRequired else .required
  | none =>
    match version_command with
    | none => .required
    | some _ =>
      match probe with
      | .raised => .required
      | .ran _rc stdout =>
        match versionSearch stdout.trim with
        | none => .failJson "The output of \x22version_command\x22 did not contain a version."
        | some version_installed =>
          match versionSearch tag_name with
          | none => .failJson "The tag name of Github release does not contain a version."
          | some version_to_install =>
            if version_installed == version_to_install then .notRequired else .required

/-- Embedding of `open(path, "w"); fp.write(content)`: the path now holds a
regular file with exactly `content`. -/
def fsWrite (fs : Fs) (p : FsPath) (content : String) : Fs :=
  fs.filter (fun e => !(e.1 == p)) ++ [(p, .file content)]

/-- Embedding of the tail of `main` (lines 477-479): after `download_asset`
returned `changed`, the version-marker file — when one is configured — is
rewritten with the release's tag name.  The `changed` argument is carried to
mirror the call site; the source never consults it before writing. -/
def writeVersionMarker (fs : Fs) (version_file : Option FsPath) (tag_name : String)
    (changed : Bool) : Fs :=
  match version_file with
  | some vf => fsWrite fs vf tag_name
  | none =>
    let _ := changed
    fs

/-- Characters of the class `[\w\-_]`: word characters (alphanumerics and the
underscore, taking the ASCII reading of `\w`) plus the hyphen. -/
def isRepoChar (c : Char) : Bool :=
  c.isAlphanum || c == '_' || c == '-'

/-- Embedding of `re.match(r"[\w\-_]+/[\w\-_]+", repo) is not None`
(line 428): `re.match` anchors at the start only, so it succeeds exactly when
some prefix of the string is a nonempty class run, a `/`, and at least one
more class character.  (Because `/` is not in the class, greedy matching with
backtracking accepts exactly when such a split exists.) -/
def repoRegexAccepts (cs : List Char) : Bool :=
  (List.range (cs.length + 1)).any
    (fun i =>
      decide (1 ≤ i) && (cs.take i).all isRepoChar &&
        match cs.drop i with
        | '/' :: c :: _ => isRepoChar c
        | _ => false)

/-- The repository-identifier validation of `main` (lines 428-429): `repo` is
accepted (no "Invalid repo" failure) exactly when the regex matches. -/
def validRepo (repo : String) : Bool :=
  repoRegexAccepts repo.toList

/-! ## Helper lemmas -/

/-- Writing a file makes the written path hold exactly the written content. -/
theorem fsLookup_fsWrite (fs : Fs) (p : FsPath) (content : String) :
    fsLookup (fsWrite fs p content) p = some (.file content) := by
  unfold fsWrite fsLookup
  rw [List.find?_append]
  have h1 : (fs.filter (fun e => !(e.1 == p))).find? (fun e => e.1 == p) = none := by
    rw [List.find?_eq_none]
    intro x hx
    have := (List.mem_filter.1 hx).2
    simp only [Bool.not_eq_true'] at this
    simp [this]
  rw [h1]
  simp [List.find?]

/-! ## C1 -/

/-- C1: with exactly one asset fully matching the pattern (`b.txt`, the
second element), `select_asset` nevertheless returns `assets[0]` — the head
of the original list, which does not match the pattern at all.  The claim
"that matching asset is returned" fails on the code (line 368 returns
`assets[0]` instead of `filtered_assets[0]`). -/
theorem select_asset_pattern_unique_returns_head_of_assets :
    AssetSelector.select_asset ⟨fun n => n == "b.txt", "linux", ["amd64"]⟩
        [⟨"a.txt", "urlA"⟩, ⟨"b.txt", "urlB"⟩] = .ok ⟨"a.txt", "urlA"⟩
    ∧ patternFiltered ⟨fun n => n == "b.txt", "linux", ["amd64"]⟩
        [⟨"a.txt", "urlA"⟩, ⟨"b.txt", "urlB"⟩] = [⟨"b.txt", "urlB"⟩] := by
  exact ⟨rfl, rfl⟩

/-! ## C6 -/

/-- C6 counterexample: installation ran with `changed = false`, yet the
version-marker file (previously holding `v1.0.0`) is rewritten to the
release's tag `v2.0.0` — the claim "if installation ran but changed nothing,
the version-marker file is not rewritten" is false on the code. -/
theorem version_marker_rewritten_when_unchanged_cex :
    fsLookup
        (writeVersionMarker
          [(["srv"], .dir), (["srv", "app.version"], .file "v1.0.0")]
          (some ["srv", "app.version"]) "v2.0.0" false)
        ["srv", "app.version"] = some (.file "v2.0.0")
    ∧ ("v2.0.0" : String) ≠ "v1.0.0" := by
  exact ⟨rfl, by decide⟩

/-- C6 amended: whenever a version-marker file is in use, the tail of `main`
rewrites it with the release's tag name after every installation attempt that
completes, whatever the `changed` verdict was; without a version-marker file
nothing is written. -/
theorem version_marker_written_unconditionally (fs : Fs) (vf : FsPath)
    (tag : String) (changed : Bool) :
    fsLookup (writeVersionMarker fs (some vf) tag changed) vf = some (.file tag)
    ∧ writeVersionMarker fs none tag changed = fs := by
  exact ⟨fsLookup_fsWrite fs vf tag, rfl⟩

/-! ## C7 -/

/-- C7 counterexample: the probe runs and exits non-zero (`rc = 1`) with
output holding no version token; `is_download_required` does not return the
"reinstall needed" verdict — it aborts fatally through `module.fail_json`.
The claim that a non-zero exit is treated as "reinstall needed" is false on
the code (the bound return code is never consulted). -/
theorem probe_nonzero_exit_not_reinstall_cex :
    is_download_required (fun _ => none) (some "tool --version") none "v1.2.3"
        (.ran 1 "tool: unknown option")
      = .failJson "The output of \x22version_command\x22 did not contain a version."
    ∧ is_download_required (fun _ => none) (some "tool --version") none "v1.2.3"
        (.ran 1 "tool: unknown option") ≠ .required := by
  exact ⟨rfl, by decide⟩

/-- C7 amended: with a version-probe command configured, an `OSError`/
`IOError` starting the probe (e.g. command not found) is treated as
"reinstall needed" rather than fatal; the exit status of a probe that did
run is ignored — its output is parsed as usual, and the run aborts fatally
exactly when the output (or the tag) yields no version. -/
theorem probe_failure_handling (versionSearch : String → Option String)
    (cmd tag stdout : String) (rc : Int) :
    is_download_required versionSearch (some cmd) none tag .raised = .required
    ∧ (versionSearch stdout.trim = none →
        is_download_required versionSearch (some cmd) none tag (.ran rc stdout)
          = .failJson "The output of \x22version_command\x22 did not contain a version.")
    ∧ (∀ vi, versionSearch stdout.trim = some vi → versionSearch tag = none →
        is_download_required versionSearch (some cmd) none tag (.ran rc stdout)
          = .failJson "The tag name of Github release does not contain a version.")
    ∧ (∀ vi vt, versionSearch stdout.trim = some vi → versionSearch tag = some vt →
        is_download_required versionSearch (some cmd) none tag (.ran rc stdout)
          = (if vi == vt then .notRequired else .required)) := by
  refine ⟨rfl, ?_, ?_, ?_⟩
  · intro h
    simp [is_download_required, h]
  · intro vi h1 h2
    simp [is_download_required, h1, h2]
  · intro vi vt h1 h2
    simp [is_download_required, h1, h2]

/-! ## C10 -/

/-- C10: the repository-identifier check of `main` only anchors at the start
(`re.match`), so every string that begins with a `user/name` pair of class
characters is accepted, whatever trails it. -/
theorem repo_validation_accepts_trailing_content (u n rest : String)
    (hu : u ≠ "") (hn : n ≠ "")
    (hu2 : u.toList.all isRepoChar = true) (hn2 : n.toList.all isRepoChar = true) :
    validRepo (u ++ "/" ++ n ++ rest) = true := by
  have hune : u.toList ≠ [] := by
    intro h
    exact hu (String.ext h)
  have hnne : n.toList ≠ [] := by
    intro h
    exact hn (String.ext h)
  obtain ⟨c, t, hct⟩ := List.exists_cons_of_ne_nil hnne
  have hulen : 1 ≤ u.toList.length := List.length_pos.2 hune
  have hcs : (u ++ "/" ++ n ++ rest).toList
      = u.toList ++ '/' :: (n.toList ++ rest.toList) := by
    show (u ++ "/" ++ n ++ rest).data = u.data ++ '/' :: (n.data ++ rest.data)
    simp [String.data_append, List.append_assoc]
  unfold validRepo repoRegexAccepts
  rw [hcs, List.any_eq_true]
  refine ⟨u.toList.length, ?_, ?_⟩
  · rw [List.mem_range]
    simp only [List.length_append, List.length_cons]
    omega
  · rw [List.take_left, List.drop_left, hct]
    have hc : isRepoChar c = true :=
      List.all_eq_true.1 hn2 c (by rw [hct]; exact List.mem_cons_self c t)
    simp [List.cons_append, hc]
    refine ⟨hulen, ?_⟩
    intro x hx
    exact List.all_eq_true.1 hu2 x hx

/-- C10 witness: `user/repo/extra` passes the repository validation. -/
theorem repo_validation_accepts_trailing_content_ex :
    validRepo "user/repo/extra" = true :=
  repo_validation_accepts_trailing_content "user" "repo" "/extra"
    (by decide) (by decide) (by decide) (by decide)

/-! ## C3 -/

/-- C3: `select_asset` applies the fixed narrowing order pattern →
architecture → system.  Zero pattern survivors fail at the pattern stage;
after the architecture and system filters the sole survivor (if any) is
returned and zero survivors fail naming that stage; more than one survivor
of all three filters fails reporting the remaining count. -/
theorem select_asset_fixed_narrowing_pipeline (sel : AssetSelector) (assets : List Asset) :
    (patternFiltered sel assets = [] →
      sel.select_asset assets = .error .noAssetMatchedRegex)
    ∧ (2 ≤ (patternFiltered sel assets).length → architectureFiltered sel assets = [] →
      sel.select_asset assets = .error (.noArchitectureMatch sel.architectures))
    ∧ (2 ≤ (patternFiltered sel assets).length → ∀ a, architectureFiltered sel assets = [a] →
      sel.select_asset assets = .ok a)
    ∧ (2 ≤ (architectureFiltered sel assets).length → systemFiltered sel assets = [] →
      sel.select_asset assets = .error (.noSystemMatch sel.architectures sel.system))
    ∧ (2 ≤ (architectureFiltered sel assets).length → ∀ a, systemFiltered sel assets = [a] →
      sel.select_asset assets = .ok a)
    ∧ (2 ≤ (systemFiltered sel assets).length →
      sel.select_asset assets = .error (.notUnique (systemFiltered sel assets).length)) := by
  have harch : (architectureFiltered sel assets).length ≤ (patternFiltered sel assets).length :=
    List.length_filter_le _ _
  have hsys : (systemFiltered sel assets).length ≤ (architectureFiltered sel assets).length :=
    List.length_filter_le _ _
  refine ⟨?_, ?_, ?_, ?_, ?_, ?_⟩
  · intro h
    simp [AssetSelector.select_asset, h]
  · intro h2 h0
    unfold AssetSelector.select_asset
    rw [if_neg (by omega), if_neg (by omega), if_pos (by simp [h0])]
  · intro h2 a ha
    unfold AssetSelector.select_asset
    rw [if_neg (by omega), if_neg (by omega), if_neg (by simp [ha]),
      if_pos (by simp [ha])]
    simp [ha]
  · intro h2 h0
    have hp2 : 2 ≤ (patternFiltered sel assets).length := le_trans h2 harch
    unfold AssetSelector.select_asset
    rw [if_neg (by omega), if_neg (by omega), if_neg (by omega), if_neg (by omega),
      if_pos (by simp [h0])]
  · intro h2 a ha
    have hp2 : 2 ≤ (patternFiltered sel assets).length := le_trans h2 harch
    unfold AssetSelector.select_asset
    rw [if_neg (by omega), if_neg (by omega), if_neg (by omega), if_neg (by omega),
      if_neg (by simp [ha]), if_pos (by simp [ha])]
    simp [ha]
  · intro h2
    have ha2 : 2 ≤ (architectureFiltered sel assets).length := le_trans h2 hsys
    have hp2 : 2 ≤ (patternFiltered sel assets).length := le_trans ha2 harch
    unfold AssetSelector.select_asset
    rw [if_neg (by omega), if_neg (by omega), if_neg (by omega), if_neg (by omega),
      if_neg (by omega), if_neg (by omega)]

/-! ## C9 -/

/-- C9: with alias mapping `amd64 ↦ "64"` and host machine `amd64`, when both
`tool-64.zip` and `tool-arm64.zip` fully match the pattern, the selector
narrows by the aliased token `64` (which occurs token-bounded only in
`tool-64.zip`) and returns `tool-64.zip`, whatever the host system is. -/
theorem alias_mapping_selects_tool64 (rx : String → Bool) (system u1 u2 : String)
    (h1 : rx "tool-64.zip" = true) (h2 : rx "tool-arm64.zip" = true) :
    (AssetSelector.build rx system "amd64" [("amd64", ArchMapVal.one "64")]).select_asset
      [⟨"tool-64.zip", u1⟩, ⟨"tool-arm64.zip", u2⟩] = .ok ⟨"tool-64.zip", u1⟩ := by
  have hb : AssetSelector.build rx system "amd64" [("amd64", ArchMapVal.one "64")]
      = ⟨rx, system, ["64"]⟩ := rfl
  rw [hb]
  have hp : patternFiltered ⟨rx, system, ["64"]⟩
      [⟨"tool-64.zip", u1⟩, ⟨"tool-arm64.zip", u2⟩]
      = [⟨"tool-64.zip", u1⟩, ⟨"tool-arm64.zip", u2⟩] := by
    simp [patternFiltered, List.filter, h1, h2]
  have hm1 : AssetSelector.asset_matches_architecture ⟨rx, system, ["64"]⟩
      ⟨"tool-64.zip", u1⟩ = true := rfl
  have hm2 : AssetSelector.asset_matches_architecture ⟨rx, system, ["64"]⟩
      ⟨"tool-arm64.zip", u2⟩ = false := rfl
  have ha : architectureFiltered ⟨rx, system, ["64"]⟩
      [⟨"tool-64.zip", u1⟩, ⟨"tool-arm64.zip", u2⟩] = [⟨"tool-64.zip", u1⟩] := by
    rw [architectureFiltered, hp]
    simp [List.filter, hm1, hm2]
  unfold AssetSelector.select_asset
  rw [if_neg (by simp [hp]), if_neg (by simp [hp]), if_neg (by simp [ha]),
    if_pos (by simp [ha])]
  simp [ha]

/-- C9 witness: the concrete selection with a pattern accepting every name. -/
theorem alias_mapping_selects_tool64_ex :
    (AssetSelector.build (fun _ => true) "linux" "amd64"
        [("amd64", ArchMapVal.one "64")]).select_asset
      [⟨"tool-64.zip", "u1"⟩, ⟨"tool-arm64.zip", "u2"⟩] = .ok ⟨"tool-64.zip", "u1"⟩ :=
  alias_mapping_selects_tool64 (fun _ => true) "linux" "u1" "u2" rfl rfl

/-! ## C8 -/

/-- The token search matches exactly when the token occurs at some position
with both sides bounded by the string's ends or a non-alphanumeric
character. -/
theorem searchToken_iff (name tok : List Char) :
    searchToken name tok = true ↔
      ∃ i, (name.drop i).take tok.length = tok
        ∧ (i = 0 ∨ ∃ c, name[i - 1]? = some c ∧ c.isAlphanum = false)
        ∧ (i + tok.length = name.length
            ∨ ∃ c, name[i + tok.length]? = some c ∧ c.isAlphanum = false) := by
  rw [searchToken, List.any_eq_true]
  constructor
  · rintro ⟨i, _, hi⟩
    simp only [matchTokenAt, Bool.and_eq_true, Bool.or_eq_true, decide_eq_true_eq,
      Bool.not_eq_true'] at hi
    obtain ⟨⟨hA, hB⟩, hC⟩ := hi
    refine ⟨i, hA, ?_, ?_⟩
    · rcases hB with h0 | hb
      · exact Or.inl h0
      · rcases hx : name[i - 1]? with _ | c
        · rw [List.getD_eq_getElem?_getD, hx] at hb
          exact absurd hb (by decide)
        · refine Or.inr ⟨c, rfl, ?_⟩
          rw [List.getD_eq_getElem?_getD, hx] at hb
          exact hb
    · rcases hC with h0 | hb
      · exact Or.inl h0
      · rcases hx : name[i + tok.length]? with _ | c
        · rw [List.getD_eq_getElem?_getD, hx] at hb
          exact absurd hb (by decide)
        · refine Or.inr ⟨c, rfl, ?_⟩
          rw [List.getD_eq_getElem?_getD, hx] at hb
          exact hb
  · rintro ⟨i, hA, hB, hC⟩
    have hle : i ≤ name.length := by
      by_cases htok : tok = []
      · subst htok
        rcases hB with h0 | ⟨c, hc, _⟩
        · omega
        · have := (List.getElem?_eq_some.1 hc).1
          omega
      · by_contra hgt
        push_neg at hgt
        have hnil : name.drop i = [] := List.drop_eq_nil_of_le (le_of_lt hgt)
        rw [hnil, List.take_nil] at hA
        exact htok hA.symm
    refine ⟨i, List.mem_range.2 (by omega), ?_⟩
    simp only [matchTokenAt, Bool.and_eq_true, Bool.or_eq_true, decide_eq_true_eq,
      Bool.not_eq_true']
    refine ⟨⟨hA, ?_⟩, ?_⟩
    · rcases hB with h0 | ⟨c, hc, hcf⟩
      · exact Or.inl h0
      · refine Or.inr ?_
        rw [List.getD_eq_getElem?_getD, hc]
        exact hcf
    · rcases hC with h0 | ⟨c, hc, hcf⟩
      · exact Or.inl h0
      · refine Or.inr ?_
        rw [List.getD_eq_getElem?_getD, hc]
        exact hcf

/-- C8: the architecture filter accepts a single acceptable token exactly
when it occurs in the lower-cased name bounded on both sides by the string's
ends or a non-alphanumeric (non-word/underscore) character; in particular
`armv7` does not match token `arm64`, while `app-arm64-linux` does. -/
theorem architecture_token_boundary_matching :
    (∀ (name tok system url : String) (rx : String → Bool),
      AssetSelector.asset_matches_architecture ⟨rx, system, [tok]⟩ ⟨name, url⟩ = true ↔
        ∃ i, ((lowerChars name).drop i).take tok.toList.length = tok.toList
          ∧ (i = 0 ∨ ∃ c, (lowerChars name)[i - 1]? = some c ∧ c.isAlphanum = false)
          ∧ (i + tok.toList.length = (lowerChars name).length
              ∨ ∃ c, (lowerChars name)[i + tok.toList.length]? = some c
                  ∧ c.isAlphanum = false))
    ∧ AssetSelector.asset_matches_architecture
        ⟨fun _ => true, "linux", ["arm64"]⟩ ⟨"armv7", ""⟩ = false
    ∧ AssetSelector.asset_matches_architecture
        ⟨fun _ => true, "linux", ["arm64"]⟩ ⟨"app-arm64-linux", ""⟩ = true := by
  refine ⟨?_, rfl, rfl⟩
  intro name tok system url rx
  have h : AssetSelector.asset_matches_architecture ⟨rx, system, [tok]⟩ ⟨name, url⟩
      = searchToken (lowerChars name) tok.toList := by
    simp [AssetSelector.asset_matches_architecture]
  rw [h, searchToken_iff]

/-! ## Move-pipeline lemmas -/

/-- Finding in a mapped list is mapping the find on the composed predicate. -/
theorem fsFindMap {α β : Type} (f : α → β) (p : β → Bool) (l : List α) :
    (l.map f).find? p = (l.find? (fun a => p (f a))).map f := by
  induction l with
  | nil => rfl
  | cons a t ih =>
    simp only [List.map_cons, List.find?]
    cases h : p (f a) with
    | true => simp [h]
    | false => simp [h, ih]

/-- Finding in a filtered list is finding on the conjoined predicate. -/
theorem fsFindFilter {α : Type} (q p : α → Bool) (l : List α) :
    (l.filter q).find? p = l.find? (fun a => q a && p a) := by
  induction l with
  | nil => rfl
  | cons a t ih =>
    by_cases hq : q a = true
    · by_cases hp : p a = true
      · rw [List.filter_cons_of_pos hq, List.find?_cons_of_pos _ hp,
          List.find?_cons_of_pos _ (by simp [hq, hp])]
      · rw [List.filter_cons_of_pos hq, List.find?_cons_of_neg _ (by simp [hp]),
          List.find?_cons_of_neg _ (by simp [hq, hp]), ih]
    · rw [List.filter_cons_of_neg (by simp [hq]),
        List.find?_cons_of_neg _ (by simp [hq]), ih]

/-- After `fsMove fs src dst`, the destination path holds exactly what the
source path held: the moved entry overwrites whatever was at `dst`. -/
theorem fsLookup_fsMove_dst (fs : Fs) (src dst : FsPath) :
    fsLookup (fsMove fs src dst) dst = fsLookup fs src := by
  unfold fsMove fsLookup
  rw [List.find?_append]
  have h1 : (fs.filter (fun e => !(src.isPrefixOf e.1) && !(dst.isPrefixOf e.1))).find?
      (fun e => e.1 == dst) = none := by
    rw [List.find?_eq_none]
    intro x hx
    have hk := (List.mem_filter.1 hx).2
    intro hbeq
    have hxd : x.1 = dst := by simpa using hbeq
    rw [hxd] at hk
    rw [List.isPrefixOf_iff_prefix.2 (List.prefix_refl dst)] at hk
    simp at hk
  rw [h1, Option.none_or, fsFindMap, fsFindFilter]
  have hfind : fs.find?
        (fun a => src.isPrefixOf a.1 && ((reroot src dst a.1, a.2).1 == dst))
      = fs.find? (fun a => a.1 == src) := by
    congr 1
    funext a
    by_cases hpre : src.isPrefixOf a.1 = true
    · obtain ⟨t, ht⟩ := List.isPrefixOf_iff_prefix.1 hpre
      simp only [hpre, Bool.true_and, reroot]
      rw [← ht, List.drop_left, Bool.eq_iff_iff]
      simp only [beq_iff_eq]
      rw [List.append_right_eq_self, List.append_right_eq_self]
    · have hpre' : src.isPrefixOf a.1 = false := by
        cases hb : src.isPrefixOf a.1
        · rfl
        · exact absurd hb hpre
      simp only [hpre', Bool.false_and]
      have hne : (a.1 == src) = false := by
        rw [beq_eq_false_iff_ne]
        intro hcontra
        rw [hcontra, List.isPrefixOf_iff_prefix.2 (List.prefix_refl src)] at hpre'
        cases hpre'
      rw [hne]
  rw [hfind]
  cases fs.find? (fun a => a.1 == src) <;> rfl

/-- A validation-only pass over any batch moves nothing: it returns the
filesystem it was given unchanged, whether it succeeds or raises. -/
theorem movePathsGo_validate (fs : Fs) (l : List (FsPath × List FsPath)) (c : Bool) :
    movePathsGo true fs l c = .ok (fs, c)
    ∨ ∃ e, movePathsGo true fs l c = .error (e, fs) := by
  induction l generalizing c with
  | nil => exact Or.inl rfl
  | cons hd tl ih =>
    obtain ⟨dest, pathList⟩ := hd
    simp only [movePathsGo]
    repeat' split
    all_goals
      first
      | exact Or.inr ⟨_, rfl⟩
      | exact ih c
      | simp_all

/-! ## C2 -/

/-- C2: whenever the validation pass raises any conflict error, the whole
`move_paths` call aborts with that error and the filesystem it carries is
exactly the input filesystem — no move of the batch, valid destinations
included, has been executed. -/
theorem move_paths_validation_failure_mutates_nothing (fs fs₀ : Fs)
    (ptm : List (FsPath × List FsPath)) (e : MoveError)
    (h : movePathsGo true fs ptm false = .error (e, fs₀)) :
    fs₀ = fs ∧ move_paths fs ptm = .error (e, fs) := by
  rcases movePathsGo_validate fs ptm false with hok | ⟨e', he'⟩
  · simp [h] at hok
  · have heq := he'.symm.trans h
    simp only [Except.error.injEq, Prod.mk.injEq] at heq
    obtain ⟨he, hfs⟩ := heq
    subst he
    refine ⟨hfs.symm, ?_⟩
    unfold move_paths
    rw [h, hfs]

/-- The concrete conflicting batch for C2: the destination directory `opt`
already contains a subdirectory `x` with the same name as the source
directory `tmp/x`, while the unrelated destination `dst` would accept its
file; validation raises and the filesystem of the error is untouched. -/
def conflictFs : Fs :=
  [(["opt"], .dir), (["opt", "x"], .dir), (["dst"], .dir),
    (["tmp"], .dir), (["tmp", "a"], .file "A"), (["tmp", "x"], .dir)]

/-- The pending move set for the C2 witness. -/
def conflictMoves : List (FsPath × List FsPath) :=
  [(["dst"], [["tmp", "a"]]), (["opt"], [["tmp", "x"]])]

/-- C2 witness: on the concrete conflicting batch, `move_paths` aborts with
the validation error and the untouched filesystem. -/
theorem move_paths_validation_failure_mutates_nothing_ex :
    move_paths conflictFs conflictMoves
      = .error (.destinationExists ["opt", "x"], conflictFs) :=
  (move_paths_validation_failure_mutates_nothing conflictFs conflictFs
    conflictMoves (.destinationExists ["opt", "x"]) rfl).2

/-! ## C4 -/

/-- C4: moving one source file onto a file destination.  If the destination
does not exist (but its parent does), the file is moved there and the batch
reports a change; if the destination exists as a file, the two contents are
compared, a change is reported exactly when they differ, and the destination
is overwritten either way — afterwards it holds the source's content. -/
theorem move_paths_single_file_to_file_destination (fs : Fs) (src dest : FsPath)
    (cs : String) (hsrc : fsLookup fs src = some (.file cs))
    (hnd : fsIsDir fs dest = false) :
    (fsExists fs dest = false → fsExists fs (dirname dest) = true →
      move_paths fs [(dest, [src])] = .ok (fsMove fs src dest, true)
      ∧ fsLookup (fsMove fs src dest) dest = some (.file cs))
    ∧ (∀ c, fsLookup fs dest = some (.file c) →
      move_paths fs [(dest, [src])] = .ok (fsMove fs src dest, !(cs == c))
      ∧ fsLookup (fsMove fs src dest) dest = some (.file cs)) := by
  have hlook : fsLookup (fsMove fs src dest) dest = some (.file cs) := by
    rw [fsLookup_fsMove_dst, hsrc]
  constructor
  · intro hne hpar
    refine ⟨?_, hlook⟩
    unfold move_paths
    simp only [movePathsGo, hnd, hne, hpar, Bool.false_eq_true, if_false,
      Bool.not_false, Bool.not_true, if_true]
    simp
  · intro c hdest
    have hex : fsExists fs dest = true := by
      simp [fsExists, hdest]
    have hsd : fsIsDir fs src = false := by
      simp [fsIsDir, hsrc]
    have hsame : files_have_same_content fs src dest = .ok (cs == c) := by
      simp [files_have_same_content, hsrc, hdest]
    refine ⟨?_, hlook⟩
    unfold move_paths
    simp only [movePathsGo, hnd, hex, hsd, hsame, Bool.false_eq_true, if_false,
      Bool.not_false, Bool.not_true, if_true]
    simp

/-- The filesystem for the C4 witness: `etc/conf` holds `old`, the freshly
extracted `tmp2/conf` holds `new`. -/
def overwriteFs : Fs :=
  [(["etc"], .dir), (["etc", "conf"], .file "old"),
    (["tmp2"], .dir), (["tmp2", "conf"], .file "new")]

/-- C4 witness: moving `tmp2/conf` onto the existing `etc/conf` with
different content reports a change and leaves the source's content at the
destination. -/
theorem move_paths_single_file_to_file_destination_ex :
    move_paths overwriteFs [(["etc", "conf"], [["tmp2", "conf"]])]
      = .ok (fsMove overwriteFs ["tmp2", "conf"] ["etc", "conf"], true)
    ∧ fsLookup (fsMove overwriteFs ["tmp2", "conf"] ["etc", "conf"]) ["etc", "conf"]
      = some (.file "new") :=
  (move_paths_single_file_to_file_destination overwriteFs ["tmp2", "conf"]
    ["etc", "conf"] "new" rfl rfl).2 "old" rfl

/-! ## Classification lemmas and C5 -/

/-- Recorded paths of a cons: the head's sources then the rest's. -/
theorem recordedPaths_cons (e : FsPath × List FsPath) (t : List (FsPath × List FsPath)) :
    recordedPaths (e :: t) = e.2 ++ recordedPaths t := by
  simp [recordedPaths]

/-- Appending a source under some destination adds exactly that path to the
recorded paths. -/
theorem mem_recordedPaths_addToPaths {ptm : List (FsPath × List FsPath)}
    {dst x q : FsPath} (h : q ∈ recordedPaths (addToPaths ptm dst x)) :
    q ∈ recordedPaths ptm ∨ q = x := by
  induction ptm with
  | nil =>
    simp [addToPaths, recordedPaths] at h
    exact Or.inr h
  | cons e t ih =>
    obtain ⟨d, ps⟩ := e
    by_cases hd : (d == dst) = true
    · simp only [addToPaths, if_pos hd] at h
      rw [recordedPaths_cons] at h ⊢
      simp at h ⊢
      tauto
    · simp only [addToPaths, if_neg hd] at h
      rw [recordedPaths_cons] at h ⊢
      rcases List.mem_append.1 h with h1 | h2
      · exact Or.inl (List.mem_append.2 (Or.inl h1))
      · rcases ih h2 with h3 | h3
        · exact Or.inl (List.mem_append.2 (Or.inr h3))
        · exact Or.inr h3

/-- When the `already_included` guard is off, no recorded path is an
ancestor (or equal) of the entry. -/
theorem alreadyIncluded_false {ptm : List (FsPath × List FsPath)} {x : FsPath}
    (h : alreadyIncluded ptm x = false) :
    ∀ p ∈ recordedPaths ptm, p.isPrefixOf x = false := by
  intro p hp
  rw [recordedPaths, List.mem_flatMap] at hp
  obtain ⟨e, he, hpe⟩ := hp
  cases hb : p.isPrefixOf x
  · rfl
  · exfalso
    rw [alreadyIncluded, List.any_eq_false] at h
    have h2 := h e he
    exact h2 (List.any_eq_true.2 ⟨p, hpe, hb⟩)

/-- One classification step either keeps the recorded paths or adds the
visited entry, and adds it only when no recorded path covers it. -/
theorem mem_recordedPaths_classifyStep {rules : List MoveRule}
    {ptm : List (FsPath × List FsPath)} {x q : FsPath}
    (h : q ∈ recordedPaths (classifyStep rules ptm x)) :
    q ∈ recordedPaths ptm ∨ (q = x ∧ alreadyIncluded ptm x = false) := by
  unfold classifyStep at h
  by_cases ha : alreadyIncluded ptm x = true
  · rw [if_pos ha] at h
    exact Or.inl h
  · have ha' : alreadyIncluded ptm x = false := by
      cases hb : alreadyIncluded ptm x
      · rfl
      · exact absurd hb ha
    rw [if_neg ha] at h
    rcases hf : rules.find? (fun r => r.src_match x) with _ | r
    · rw [hf] at h
      exact Or.inl h
    · rw [hf] at h
      rcases mem_recordedPaths_addToPaths h with h1 | h1
      · exact Or.inl h1
      · exact Or.inr ⟨h1, ha'⟩

/-- Folding the classification over a walk whose ancestors come first keeps
the recorded paths an antichain of the ancestor order. -/
theorem classifyFold_antichain (rules : List MoveRule) :
    ∀ (walk : List FsPath) (ptm : List (FsPath × List FsPath)),
      (∀ p ∈ recordedPaths ptm, ∀ q ∈ recordedPaths ptm, strictAncestor p q = false) →
      (∀ r ∈ recordedPaths ptm, ∀ x ∈ walk, strictAncestor x r = false) →
      walk.Pairwise (fun a b => strictAncestor b a = false) →
      ∀ p ∈ recordedPaths (walk.foldl (classifyStep rules) ptm),
        ∀ q ∈ recordedPaths (walk.foldl (classifyStep rules) ptm),
          strictAncestor p q = false := by
  intro walk
  induction walk with
  | nil =>
    intro ptm h1 _ _
    simpa using h1
  | cons x rest ih =>
    intro ptm h1 h2 hpair
    rw [List.foldl_cons]
    have hxrest : ∀ y ∈ rest, strictAncestor y x = false :=
      (List.pairwise_cons.1 hpair).1
    have hpair' := (List.pairwise_cons.1 hpair).2
    apply ih
    · intro p hp q hq
      rcases mem_recordedPaths_classifyStep hp with hp1 | ⟨hp1, _⟩
      · rcases mem_recordedPaths_classifyStep hq with hq1 | ⟨hq1, hqninc⟩
        · exact h1 p hp1 q hq1
        · subst hq1
          have hnp := alreadyIncluded_false hqninc p hp1
          simp [strictAncestor, hnp]
      · subst hp1
        rcases mem_recordedPaths_classifyStep hq with hq1 | ⟨hq1, _⟩
        · exact h2 q hq1 p (List.mem_cons_self p rest)
        · subst hq1
          simp [strictAncestor]
    · intro r hr y hy
      rcases mem_recordedPaths_classifyStep hr with hr1 | ⟨hr1, _⟩
      · exact h2 r hr1 y (List.mem_cons_of_mem x hy)
      · subst hr1
        exact hxrest y hy
    · exact hpair'

/-- C5: over any walk sequence in which no entry is preceded by one of its
strict descendants (as `os.walk` yields, ancestors first), classification
never records two paths one of which is a strict ancestor of the other — an
entry below an already recorded path is never separately assigned to any
move rule, so a matched directory consumes its subtree as one unit. -/
theorem classification_never_assigns_descendant_of_recorded
    (moveRules : List MoveRule) (walk : List FsPath)
    (horder : walk.Pairwise (fun a b => strictAncestor b a = false)) :
    ∀ p ∈ recordedPaths (classifyWalk moveRules walk),
      ∀ q ∈ recordedPaths (classifyWalk moveRules walk),
        strictAncestor p q = false := by
  unfold classifyWalk
  apply classifyFold_antichain
  · intro p hp
    simp [recordedPaths] at hp
  · intro r hr
    simp [recordedPaths] at hr
  · exact horder

/-- The two rules of the C5 witness: one matching the directory `bin`, a
second matching the file `bin/tool` inside it. -/
def binRules : List MoveRule :=
  [⟨fun p => p == ["bin"], ["usr", "local", "bin"]⟩,
    ⟨fun p => p == ["bin", "tool"], ["usr", "local"]⟩]

/-- C5 witness: on the walk `bin`, `bin/tool` only the directory-level path
is recorded — the nested file is not separately assigned — and the
antichain conclusion is discharged at the concrete input. -/
theorem classification_never_assigns_descendant_of_recorded_ex :
    strictAncestor ["bin"] ["bin"] = false
    ∧ recordedPaths (classifyWalk binRules [["bin"], ["bin", "tool"]]) = [["bin"]] := by
  constructor
  · exact classification_never_assigns_descendant_of_recorded binRules
      [["bin"], ["bin", "tool"]] (by decide) ["bin"] (by decide) ["bin"] (by decide)
  · rfl
